import Mathlib

/-!
Shallow embedding of the quartermaster task manager (Rust) and proofs about it.

The embedding follows the source files:
- `src/task.rs`: the `Task` trait (`name()`, `id()`; `run()` is modelled as an
  event in worker traces, since its body is caller-supplied).
- `src/store/state.rs`: `TaskState` and `TaskStatus`.
- `src/store/memory.rs`: `InMemoryTaskStore`, whose `HashSet<TaskState>` is
  modelled as a duplicate-free `List TaskState` (`hsInsert` is a no-op on an
  element already present, mirroring `HashSet::insert`; `List.find?` stands for
  the set's arbitrary-order `find`; `List.erase` for `HashSet::remove`).
- `src/store/mongodb.rs`: `MongoDBTaskStore`, whose collection is modelled as a
  `List TaskState` of documents; backend I/O is modelled on its success path.
- `src/manager.rs`: `TaskManager::run`, the worker loop body of
  `start_with_options`, and the `StopTask` sentinel.

`now_secs()` (the ambient clock) is threaded through as an explicit `now`
parameter. Fallible store operations return `Except TaskStoreError`.
-/

namespace Quartermaster

/-- `TaskStatus` from `src/store/state.rs`: `Pending` or `Running`. -/
inductive TaskStatus
  | Pending
  | Running
deriving DecidableEq

/-- A task, reduced to its identity-defining operations `name()` and `id()`
from `src/task.rs`.  `run()` produces no value and is modelled as a trace
event where needed. -/
structure Task where
  name : String
  id : String
deriving DecidableEq

/-- `TaskState` from `src/store/state.rs` (non-mongodb variant: `id` is an
optional `String`; the mongodb variant carries an `ObjectId` instead, also
modelled as `Option String`).  The Rust field `instance` is a Lean keyword and
is rendered `inst` here. -/
structure TaskState where
  id : Option String
  task_id : String
  task_name : String
  task_manager : String
  inst : Option String
  status : TaskStatus
  creation_time : Nat
deriving DecidableEq

/-- `TaskStoreError` from `src/store/mod.rs`. -/
inductive TaskStoreError
  | Data (msg : String)
  | Io (msg : String)
  | NotFound (msg : String)
deriving DecidableEq

/-- The predicate `s.task_id == task.id() && s.task_name == task.name()` used
by `InMemoryTaskStore::get_state` (`src/store/memory.rs` line 74). -/
def stateMatches (s : TaskState) (t : Task) : Bool :=
  s.task_id == t.id && s.task_name == t.name

/-- The `TaskState` value built by `InMemoryTaskStore::save_state`
(`src/store/memory.rs` lines 39-47): a fresh `Pending` record carrying the
task's name and id, the store's manager name, no instance, and the current
time. -/
def mkState (mgr : String) (t : Task) (now : Nat) : TaskState :=
  { id := none, task_id := t.id, task_name := t.name, task_manager := mgr,
    inst := none, status := TaskStatus.Pending, creation_time := now }

/-- `HashSet::insert`: a no-op when the element is already present, otherwise
the element is added (list order models the set's arbitrary iteration
order). -/
def hsInsert (s : TaskState) (l : List TaskState) : List TaskState :=
  if s ∈ l then l else s :: l

/-- `InMemoryTaskStore::get_state` (`src/store/memory.rs` lines 67-75):
always `Ok`, returning the first record (in the set's iteration order)
matching the task's identity. -/
def mem_get_state (st : List TaskState) (t : Task) :
    Except TaskStoreError (Option TaskState) :=
  Except.ok (st.find? (fun s => stateMatches s t))

/-- `InMemoryTaskStore::save_state` (`src/store/memory.rs` lines 37-51):
unconditionally inserts a fresh `Pending` record and returns it, always
`Ok`.  The pair is (new store contents, returned state). -/
def mem_save_state (mgr : String) (st : List TaskState) (t : Task) (now : Nat) :
    Except TaskStoreError (List TaskState × TaskState) :=
  Except.ok (hsInsert (mkState mgr t now) st, mkState mgr t now)

/-- `InMemoryTaskStore::delete_state` (`src/store/memory.rs` lines 53-65):
looks the record up via `get_state`; removes it if found, otherwise fails
with `NotFound`. -/
def mem_delete_state (st : List TaskState) (t : Task) :
    Except TaskStoreError (List TaskState) :=
  match mem_get_state st t with
  | Except.error e => Except.error e
  | Except.ok (some s) => Except.ok (st.erase s)
  | Except.ok none =>
      Except.error (TaskStoreError.NotFound
        ("task " ++ t.name ++ " with id " ++ t.id ++ " was not found"))

/-- `InMemoryTaskStore::update_status` (`src/store/memory.rs` lines 81-100):
looks the record up via `get_state`; if found, removes the old value and
inserts a copy with the new status (remove-then-insert, not in-place);
otherwise fails with `NotFound`. -/
def mem_update_status (st : List TaskState) (t : Task) (status : TaskStatus) :
    Except TaskStoreError (List TaskState) :=
  match mem_get_state st t with
  | Except.error e => Except.error e
  | Except.ok (some s) =>
      Except.ok (hsInsert { s with status := status } (st.erase s))
  | Except.ok none =>
      Except.error (TaskStoreError.NotFound
        ("task " ++ t.name ++ " with id " ++ t.id ++ " was not found"))

/-- `InMemoryTaskStore::count_tasks` (`src/store/memory.rs` lines 77-79). -/
def mem_count_tasks (st : List TaskState) : Except TaskStoreError Nat :=
  Except.ok st.length

/-- `InMemoryTaskStore::clear` (`src/store/memory.rs` lines 102-105). -/
def mem_clear (_st : List TaskState) : Except TaskStoreError (List TaskState) :=
  Except.ok []

/-- `InMemoryTaskStore::get_all_states` (`src/store/memory.rs` lines
107-109). -/
def mem_get_all_states (st : List TaskState) :
    Except TaskStoreError (List TaskState) :=
  Except.ok st

/-- Whether a mongodb document lies in the scope used by `count_tasks`,
`clear` and `get_all_states` of `MongoDBTaskStore`: its `instance` field
equals the store's instance label. -/
def inInstanceScope (instName : String) (d : TaskState) : Bool :=
  d.inst == some instName

/-- `MongoDBTaskStore::get_state` (`src/store/mongodb.rs` lines 107-119):
`find_one` on `{task_manager, task_name, task_id}` (success path of the
backend call). -/
def mongo_get_state (mgr : String) (docs : List TaskState) (t : Task) :
    Except TaskStoreError (Option TaskState) :=
  Except.ok (docs.find? (fun d =>
    d.task_manager == mgr && d.task_name == t.name && d.task_id == t.id))

/-- `find_one_and_delete` on `{_id: oid}`: removes the first document whose
`_id` equals `oid`. -/
def deleteFirstById (oid : Option String) : List TaskState → List TaskState
  | [] => []
  | d :: rest => if d.id == oid then rest else d :: deleteFirstById oid rest

/-- `update_one` on `{_id: oid}` with `{$set: {status}}`: replaces the status
of the first document whose `_id` equals `oid`. -/
def updateFirstById (oid : Option String) (status : TaskStatus) :
    List TaskState → List TaskState
  | [] => []
  | d :: rest =>
      if d.id == oid then { d with status := status } :: rest
      else d :: updateFirstById oid status rest

/-- `MongoDBTaskStore::delete_state` (`src/store/mongodb.rs` lines 93-105):
if `get_state` finds a document it is deleted by `_id`; when nothing is
found the function still returns `Ok(())`. -/
def mongo_delete_state (mgr : String) (docs : List TaskState) (t : Task) :
    Except TaskStoreError (List TaskState) :=
  match mongo_get_state mgr docs t with
  | Except.error e => Except.error e
  | Except.ok (some state) => Except.ok (deleteFirstById state.id docs)
  | Except.ok none => Except.ok docs

/-- `MongoDBTaskStore::update_status` (`src/store/mongodb.rs` lines 129-145):
if `get_state` finds a document its status is replaced by `_id`; when
nothing is found the function still returns `Ok(())`. -/
def mongo_update_status (mgr : String) (docs : List TaskState) (t : Task)
    (status : TaskStatus) : Except TaskStoreError (List TaskState) :=
  match mongo_get_state mgr docs t with
  | Except.error e => Except.error e
  | Except.ok (some state) => Except.ok (updateFirstById state.id status docs)
  | Except.ok none => Except.ok docs

/-- `MongoDBTaskStore::count_tasks` (`src/store/mongodb.rs` lines 121-127):
counts the documents whose `instance` equals the store's instance label. -/
def mongo_count_tasks (instName : String) (docs : List TaskState) :
    Except TaskStoreError Nat :=
  Except.ok (docs.filter (inInstanceScope instName)).length

/-- `MongoDBTaskStore::clear` (`src/store/mongodb.rs` lines 147-152):
`delete_many` on `{instance}` removes every document whose `instance` equals
the store's instance label. -/
def mongo_clear (instName : String) (docs : List TaskState) :
    Except TaskStoreError (List TaskState) :=
  Except.ok (docs.filter (fun d => !(inInstanceScope instName d)))

/-- The `StopTask` sentinel from `src/manager.rs` lines 18-31: `name()` and
`id()` both return `"stop"`, `run()` does nothing. -/
def stopTask : Task :=
  { name := "stop", id := "stop" }

/-- `TaskManager::run` (`src/manager.rs` lines 64-100) over the in-memory
store: check `get_state` — on error or on an existing record, return without
any effect; otherwise call `save_state` (an error is only logged) and push the
task onto the queue.  The pair is (store contents, queue contents). -/
def managerRun (mgr : String) (now : Nat) (st : List TaskState) (q : List Task)
    (t : Task) : List TaskState × List Task :=
  match mem_get_state st t with
  | Except.error _ => (st, q)
  | Except.ok (some _) => (st, q)
  | Except.ok none =>
      match mem_save_state mgr st t now with
      | Except.ok (st2, _) => (st2, q ++ [t])
      | Except.error _ => (st, q ++ [t])

/-- A sequence of `TaskManager::run` calls in the caller's call order, starting
from the given store and queue contents. -/
def submitAll (mgr : String) (now : Nat) (stq : List TaskState × List Task) :
    List Task → List TaskState × List Task
  | [] => stq
  | t :: ts => submitAll mgr now (managerRun mgr now stq.1 stq.2 t) ts

/-- The control flow of `TaskManager::run` (`src/manager.rs` lines 64-100) as
a function of the outcomes of its two store calls, returning whether the task
is pushed onto the queue.  A `get_state` error or an existing record returns
early (nothing pushed); after `get_state` returned `Ok(None)`, a `save_state`
error is only logged and the push at line 99 still runs. -/
def managerRunPushes (getRes : Except TaskStoreError (Option TaskState))
    (saveRes : Except TaskStoreError TaskState) : Bool :=
  match getRes with
  | Except.error _ => false
  | Except.ok (some _) => false
  | Except.ok none =>
      match saveRes with
      | Except.ok _ => true
      | Except.error _ => true

/-- Observable actions of one worker-loop iteration
(`src/manager.rs` lines 152-199). -/
inductive WorkerEvent
  | statusUpdated (t : Task) (status : TaskStatus)
  | ran (t : Task)
  | stateDeleted (t : Task)
deriving DecidableEq

/-- One iteration of the worker loop body (`src/manager.rs` lines 152-199):
the dequeued task is inspected by `task.name() == "stop"` only.  A match sets
the shared `started` flag to `false` and does nothing else; otherwise the
worker updates the status to `Running`, runs the task, and deletes its state.
The result is (events in order, value of the `started` flag afterwards). -/
def workerIteration (t : Task) : List WorkerEvent × Bool :=
  if t.name == "stop" then ([], false)
  else ([WorkerEvent.statusUpdated t TaskStatus.Running, WorkerEvent.ran t,
         WorkerEvent.stateDeleted t], true)

/-- A single worker draining a queue (`src/manager.rs` lines 151-200): each
iteration pops the next item; a task named `"stop"` clears the flag and ends
the loop, any other task is processed to completion before the next pop.  The
result lists the tasks in completion order.  An exhausted list models the
worker blocking on `queue.pop()` with no further completions. -/
def workerLoop : List Task → List Task
  | [] => []
  | t :: rest => if t.name == "stop" then [] else t :: workerLoop rest

/-- The store-mutating operations the manager performs, each at the source
location where it appears: `submit` is `TaskManager::run`, `markRunning` and
`finish` are the worker loop's `update_status(.., Running)` and
`delete_state` calls (errors are logged and ignored, `src/manager.rs` lines
158-169 and 191-198), and `clearAll` is `TaskManager::clear` run at
startup. -/
inductive ManagerOp
  | submit (t : Task) (now : Nat)
  | markRunning (t : Task)
  | finish (t : Task)
  | clearAll

/-- Effect of one manager operation on the in-memory store contents. -/
def applyOp (mgr : String) (st : List TaskState) : ManagerOp → List TaskState
  | ManagerOp.submit t now => (managerRun mgr now st [] t).1
  | ManagerOp.markRunning t =>
      match mem_update_status st t TaskStatus.Running with
      | Except.ok st2 => st2
      | Except.error _ => st
  | ManagerOp.finish t =>
      match mem_delete_state st t with
      | Except.ok st2 => st2
      | Except.error _ => st
  | ManagerOp.clearAll =>
      match mem_clear st with
      | Except.ok st2 => st2
      | Except.error _ => st

/-- Store contents reachable by manager operations: the manager starts from a
cleared store and only ever mutates it through `applyOp`. -/
inductive Reachable (mgr : String) : List TaskState → Prop
  | init : Reachable mgr []
  | step (st : List TaskState) (op : ManagerOp) :
      Reachable mgr st → Reachable mgr (applyOp mgr st op)

/-- Two states describe the same task identity: equal `task_id` and
`task_name` (the uniqueness key of §3 of the design). -/
def sameId (a b : TaskState) : Prop :=
  a.task_id = b.task_id ∧ a.task_name = b.task_name

instance : DecidablePred (fun p : TaskState × TaskState => sameId p.1 p.2) :=
  fun _ => by unfold sameId; infer_instance

/-- At most one record per task identity (pairwise distinct identities). -/
def IdUnique (st : List TaskState) : Prop :=
  st.Pairwise (fun a b => ¬ sameId a b)

/-- Number of stored records carrying the identity of task `t`. -/
def countRecords (st : List TaskState) (t : Task) : Nat :=
  (st.filter (fun s => stateMatches s t)).length

/-- Number of queue entries carrying the identity of task `t`. -/
def countQueued (q : List Task) (t : Task) : Nat :=
  (q.filter (fun u => u.name == t.name && u.id == t.id)).length

/-- A `Pending` record for task `("t", "1")`, used in concrete store
contents. -/
def cexPending : TaskState :=
  { id := none, task_id := "1", task_name := "t", task_manager := "m",
    inst := none, status := TaskStatus.Pending, creation_time := 0 }

/-- A `Running` record for the same task identity and creation time as
`cexPending`. -/
def cexRunning : TaskState :=
  { id := none, task_id := "1", task_name := "t", task_manager := "m",
    inst := none, status := TaskStatus.Running, creation_time := 0 }

/-! ### Basic lemmas about identities and the in-memory set model -/

theorem stateMatches_iff {s : TaskState} {t : Task} :
    stateMatches s t = true ↔ s.task_id = t.id ∧ s.task_name = t.name := by
  simp [stateMatches]

theorem stateMatches_mkState (mgr : String) (t : Task) (now : Nat) :
    stateMatches (mkState mgr t now) t = true := by
  simp [stateMatches, mkState]

theorem sameId_refl (a : TaskState) : sameId a a := ⟨rfl, rfl⟩

theorem sameId_symm {a b : TaskState} (h : sameId a b) : sameId b a :=
  ⟨h.1.symm, h.2.symm⟩

theorem sameId_of_matches {a b : TaskState} {t : Task}
    (ha : stateMatches a t = true) (hb : stateMatches b t = true) : sameId a b := by
  obtain ⟨ha1, ha2⟩ := stateMatches_iff.mp ha
  obtain ⟨hb1, hb2⟩ := stateMatches_iff.mp hb
  exact ⟨ha1.trans hb1.symm, ha2.trans hb2.symm⟩

theorem stateMatches_congr {a b : TaskState} (h : sameId a b) (t : Task) :
    stateMatches a t = stateMatches b t := by
  simp [stateMatches, h.1, h.2]

theorem IdUnique.eq_of_sameId {st : List TaskState} (h : IdUnique st)
    {a b : TaskState} (ha : a ∈ st) (hb : b ∈ st) (hab : sameId a b) : a = b := by
  by_contra hne
  have hsym : Symmetric (fun a b : TaskState => ¬ sameId a b) :=
    fun _ _ hr hs => hr (sameId_symm hs)
  exact List.Pairwise.forall hsym h ha hb hne hab

theorem IdUnique.nodup {st : List TaskState} (h : IdUnique st) : st.Nodup := by
  refine h.imp ?_
  intro a b hns heq
  subst heq
  exact hns (sameId_refl a)

theorem IdUnique.not_sameId_of_mem_erase {st : List TaskState} {s b : TaskState}
    (h : IdUnique st) (hs : s ∈ st) (hb : b ∈ st.erase s) : ¬ sameId s b := by
  intro hid
  have hb2 := h.nodup.mem_erase_iff.mp hb
  exact hb2.1 (h.eq_of_sameId hb2.2 hs (sameId_symm hid))

theorem find?_erase_of_neg {p : TaskState → Bool} {a : TaskState}
    (st : List TaskState) (ha : p a = false) :
    (st.erase a).find? p = st.find? p := by
  induction st with
  | nil => rfl
  | cons x xs ih =>
    by_cases hxa : x = a
    · subst hxa
      rw [List.erase_cons_head]
      exact (List.find?_cons_of_neg _ (by simp [ha])).symm
    · rw [List.erase_cons_tail (by simp [hxa])]
      cases hpx : p x with
      | true =>
          rw [List.find?_cons_of_pos _ hpx, List.find?_cons_of_pos _ hpx]
      | false =>
          rw [List.find?_cons_of_neg _ (by simp [hpx]),
            List.find?_cons_of_neg _ (by simp [hpx])]
          exact ih

theorem mkState_not_mem {mgr : String} {t : Task} {now : Nat} {st : List TaskState}
    (h : st.find? (fun s => stateMatches s t) = none) :
    mkState mgr t now ∉ st := by
  intro hmem
  exact List.find?_eq_none.mp h _ hmem (stateMatches_mkState mgr t now)

theorem hsInsert_of_not_mem {s : TaskState} {l : List TaskState} (h : s ∉ l) :
    hsInsert s l = s :: l := by
  simp [hsInsert, h]

theorem managerRun_of_found {mgr : String} {now : Nat} {st : List TaskState}
    {q : List Task} {t : Task} {s : TaskState}
    (h : st.find? (fun s => stateMatches s t) = some s) :
    managerRun mgr now st q t = (st, q) := by
  simp [managerRun, mem_get_state, h]

theorem managerRun_of_fresh {mgr : String} {now : Nat} {st : List TaskState}
    {q : List Task} {t : Task}
    (h : st.find? (fun s => stateMatches s t) = none) :
    managerRun mgr now st q t = (mkState mgr t now :: st, q ++ [t]) := by
  simp [managerRun, mem_get_state, mem_save_state, h,
    hsInsert_of_not_mem (mkState_not_mem h)]

theorem sameId_trans {a b c : TaskState} (h1 : sameId a b) (h2 : sameId b c) :
    sameId a c :=
  ⟨h1.1.trans h2.1, h1.2.trans h2.2⟩

theorem IdUnique.cons_of_fresh {st : List TaskState} {t : Task}
    (h : IdUnique st) (mgr : String) (now : Nat)
    (hfind : st.find? (fun s => stateMatches s t) = none) :
    IdUnique (mkState mgr t now :: st) := by
  refine List.pairwise_cons.mpr ⟨?_, h⟩
  intro b hb hsame
  have hbm := stateMatches_mkState mgr t now
  rw [stateMatches_congr hsame t] at hbm
  exact (List.find?_eq_none.mp hfind b hb) hbm

theorem IdUnique.update_preserves {st : List TaskState} {s : TaskState}
    (h : IdUnique st) (hmem : s ∈ st) (status : TaskStatus) :
    IdUnique ({ s with status := status } :: st.erase s) := by
  refine List.pairwise_cons.mpr
    ⟨?_, List.Pairwise.sublist (List.erase_sublist s st) h⟩
  intro b hb hsame
  exact h.not_sameId_of_mem_erase hmem hb (sameId_trans ⟨rfl, rfl⟩ hsame)

theorem idUnique_applyOp (mgr : String) (st : List TaskState) (op : ManagerOp)
    (h : IdUnique st) : IdUnique (applyOp mgr st op) := by
  cases op with
  | submit t now =>
    cases hfind : st.find? (fun s => stateMatches s t) with
    | some s =>
      have heq : applyOp mgr st (ManagerOp.submit t now) = st := by
        simp [applyOp, managerRun_of_found hfind]
      rwa [heq]
    | none =>
      have heq : applyOp mgr st (ManagerOp.submit t now)
          = mkState mgr t now :: st := by
        simp [applyOp, managerRun_of_fresh hfind]
      rw [heq]
      exact h.cons_of_fresh mgr now hfind
  | markRunning t =>
    cases hfind : st.find? (fun s => stateMatches s t) with
    | none =>
      have heq : applyOp mgr st (ManagerOp.markRunning t) = st := by
        simp [applyOp, mem_update_status, mem_get_state, hfind]
      rwa [heq]
    | some s =>
      have hmem : s ∈ st := List.mem_of_find?_eq_some hfind
      have hnm : { s with status := TaskStatus.Running } ∉ st.erase s :=
        fun hin => h.not_sameId_of_mem_erase hmem hin ⟨rfl, rfl⟩
      have heq : applyOp mgr st (ManagerOp.markRunning t)
          = { s with status := TaskStatus.Running } :: st.erase s := by
        simp [applyOp, mem_update_status, mem_get_state, hfind,
          hsInsert_of_not_mem hnm]
      rw [heq]
      exact h.update_preserves hmem _
  | finish t =>
    cases hfind : st.find? (fun s => stateMatches s t) with
    | none =>
      have heq : applyOp mgr st (ManagerOp.finish t) = st := by
        simp [applyOp, mem_delete_state, mem_get_state, hfind]
      rwa [heq]
    | some s =>
      have heq : applyOp mgr st (ManagerOp.finish t) = st.erase s := by
        simp [applyOp, mem_delete_state, mem_get_state, hfind]
      rw [heq]
      exact List.Pairwise.sublist (List.erase_sublist s st) h
  | clearAll =>
    have heq : applyOp mgr st ManagerOp.clearAll = [] := by
      simp [applyOp, mem_clear]
    rw [heq]
    exact List.Pairwise.nil

theorem reachable_idUnique {mgr : String} {st : List TaskState}
    (h : Reachable mgr st) : IdUnique st := by
  induction h with
  | init => exact List.Pairwise.nil
  | step st2 op _ ih => exact idUnique_applyOp mgr st2 op ih

theorem submitAll_spec (mgr : String) (now : Nat) (ts : List Task) :
    ∀ (st : List TaskState) (q : List Task),
      (∀ t ∈ ts, st.find? (fun s => stateMatches s t) = none) →
      ts.Pairwise (fun a b => ¬ (a.name = b.name ∧ a.id = b.id)) →
      submitAll mgr now (st, q) ts
        = (ts.reverse.map (fun u => mkState mgr u now) ++ st, q ++ ts) := by
  induction ts with
  | nil =>
    intro st q _ _
    simp [submitAll]
  | cons t ts ih =>
    intro st q hfresh hdist
    have hfind : st.find? (fun s => stateMatches s t) = none :=
      hfresh t (List.mem_cons_self t ts)
    have hd := List.pairwise_cons.mp hdist
    have hfresh2 : ∀ u ∈ ts,
        (mkState mgr t now :: st).find? (fun s => stateMatches s u) = none := by
      intro u hu
      have hne : ¬ (t.name = u.name ∧ t.id = u.id) := hd.1 u hu
      have hm : stateMatches (mkState mgr t now) u = false := by
        by_cases h1 : t.name = u.name
        · by_cases h2 : t.id = u.id
          · exact absurd ⟨h1, h2⟩ hne
          · simp [stateMatches, mkState, h2]
        · simp [stateMatches, mkState, h1]
      rw [List.find?_cons_of_neg _ (by simp [hm])]
      exact hfresh u (List.mem_cons_of_mem t hu)
    have hstep : submitAll mgr now (st, q) (t :: ts)
        = submitAll mgr now (mkState mgr t now :: st, q ++ [t]) ts := by
      show submitAll mgr now (managerRun mgr now st q t) ts
        = submitAll mgr now (mkState mgr t now :: st, q ++ [t]) ts
      rw [managerRun_of_fresh hfind]
    rw [hstep, ih _ _ hfresh2 hd.2]
    simp

theorem workerLoop_no_stop (ts : List Task)
    (h : ∀ t ∈ ts, ¬ t.name = "stop") :
    workerLoop (ts ++ [stopTask]) = ts := by
  induction ts with
  | nil => simp [workerLoop, stopTask]
  | cons t ts ih =>
    have hb : (t.name == "stop") = false := by
      simp [h t (List.mem_cons_self t ts)]
    have : workerLoop ((t :: ts) ++ [stopTask])
        = t :: workerLoop (ts ++ [stopTask]) := by
      simp [workerLoop, hb]
    rw [this, ih (fun u hu => h u (List.mem_cons_of_mem t hu))]

/-! ### Claim theorems -/

/-- C2, counterexample: the claim says a `save_state` error makes the manager
drop the submission without enqueuing it, but after `get_state` returns
`Ok(None)` a `save_state` error is only logged and the push at
`src/manager.rs` line 99 still runs, so the task is enqueued. -/
theorem c2_counterexample :
    managerRunPushes (Except.ok none)
      (Except.error (TaskStoreError.Io "store unavailable")) = true := rfl

/-- C2, amended: a store error from the existence check (`get_state`) silently
drops the submission (nothing is pushed, and `run` returns no error to the
caller by its signature); a store error from the persist (`save_state`) is
logged but the task is still pushed onto the queue. -/
theorem c2_amended_error_handling (e e2 : TaskStoreError)
    (saveRes : Except TaskStoreError TaskState) (s : TaskState) :
    managerRunPushes (Except.error e) saveRes = false
    ∧ managerRunPushes (Except.ok (some s)) saveRes = false
    ∧ managerRunPushes (Except.ok none) (Except.error e2) = true :=
  ⟨rfl, rfl, rfl⟩

/-- C3, counterexample: on an identity with no stored record, the MongoDB
store's `update_status` and `delete_state` return `Ok`, not a NotFound
error (`src/store/mongodb.rs` lines 129-145 and 93-105 fall through to
`Ok(())` when `get_state` finds nothing). -/
theorem c3_counterexample :
    mongo_update_status "m" [] (Task.mk "t" "1") TaskStatus.Running
        = Except.ok []
    ∧ mongo_delete_state "m" [] (Task.mk "t" "1") = Except.ok [] :=
  ⟨rfl, rfl⟩

/-- C3, amended: on an identity with no stored record, the in-memory store's
`update_status` and `delete_state` fail with NotFound, while the MongoDB
store's `update_status` and `delete_state` silently succeed, leaving the
collection unchanged. -/
theorem c3_missing_identity (mgr : String) (st docs : List TaskState)
    (t : Task) (status : TaskStatus)
    (hmem : mem_get_state st t = Except.ok none)
    (hmongo : mongo_get_state mgr docs t = Except.ok none) :
    (∃ msg, mem_update_status st t status
        = Except.error (TaskStoreError.NotFound msg))
    ∧ (∃ msg, mem_delete_state st t
        = Except.error (TaskStoreError.NotFound msg))
    ∧ mongo_update_status mgr docs t status = Except.ok docs
    ∧ mongo_delete_state mgr docs t = Except.ok docs := by
  refine ⟨⟨"task " ++ t.name ++ " with id " ++ t.id ++ " was not found", ?_⟩,
    ⟨"task " ++ t.name ++ " with id " ++ t.id ++ " was not found", ?_⟩, ?_, ?_⟩ <;>
    simp [mem_update_status, mem_delete_state, mongo_update_status,
      mongo_delete_state, hmem, hmongo]

/-- Witness for C3 at a concrete input: the empty store and collection hold
no record for task `("t", "1")`. -/
theorem c3_missing_identity_witness :
    mem_get_state [] (Task.mk "t" "1") = Except.ok none
    ∧ mongo_get_state "m" [] (Task.mk "t" "1") = Except.ok none
    ∧ ((∃ msg, mem_update_status [] (Task.mk "t" "1") TaskStatus.Running
          = Except.error (TaskStoreError.NotFound msg))
       ∧ (∃ msg, mem_delete_state [] (Task.mk "t" "1")
          = Except.error (TaskStoreError.NotFound msg))
       ∧ mongo_update_status "m" [] (Task.mk "t" "1") TaskStatus.Running
          = Except.ok []
       ∧ mongo_delete_state "m" [] (Task.mk "t" "1") = Except.ok []) :=
  ⟨rfl, rfl, c3_missing_identity "m" [] [] (Task.mk "t" "1") TaskStatus.Running rfl rfl⟩

/-- C8: `clear()` always succeeds and empties the store's scope, and
`count_tasks()` on the result returns 0 — for the in-memory store (whole
store) and for the MongoDB store (records of the store's instance label). -/
theorem c8_clear_then_count (st docs : List TaskState) (instName : String) :
    (mem_clear st = Except.ok [] ∧ mem_count_tasks [] = Except.ok 0)
    ∧ ∃ docs2, mongo_clear instName docs = Except.ok docs2
        ∧ (∀ d ∈ docs2, inInstanceScope instName d = false)
        ∧ (∀ d ∈ docs, inInstanceScope instName d = false → d ∈ docs2)
        ∧ mongo_count_tasks instName docs2 = Except.ok 0 := by
  refine ⟨⟨rfl, rfl⟩, docs.filter (fun d => !(inInstanceScope instName d)),
    rfl, ?_, ?_, ?_⟩
  · intro d hd
    have := (List.mem_filter.mp hd).2
    simpa using this
  · intro d hd hscope
    exact List.mem_filter.mpr ⟨hd, by simp [hscope]⟩
  · simp [mongo_count_tasks, List.filter_filter]

/-- C1: `TaskManager::run` on a task whose identity already has a stored
record leaves the store and the queue unchanged; consequently submitting the
same identity twice (from a store and queue holding nothing for it) leaves
exactly one stored record and exactly one enqueued task for that identity. -/
theorem c1_duplicate_submission (mgr : String) (now now2 : Nat)
    (st : List TaskState) (q : List Task) (t : Task)
    (hs : mem_get_state st t = Except.ok none)
    (hq : countQueued q t = 0) :
    (∀ (st2 : List TaskState) (q2 : List Task) (s : TaskState),
        mem_get_state st2 t = Except.ok (some s) →
        managerRun mgr now2 st2 q2 t = (st2, q2))
    ∧ managerRun mgr now2 (managerRun mgr now st q t).1
        (managerRun mgr now st q t).2 t = managerRun mgr now st q t
    ∧ countRecords (managerRun mgr now st q t).1 t = 1
    ∧ countQueued (managerRun mgr now st q t).2 t = 1 := by
  have hfind : st.find? (fun s => stateMatches s t) = none := by
    simpa [mem_get_state] using hs
  have hrun1 : managerRun mgr now st q t = (mkState mgr t now :: st, q ++ [t]) :=
    managerRun_of_fresh hfind
  refine ⟨?_, ?_, ?_, ?_⟩
  · intro st2 q2 s hs2
    exact managerRun_of_found (by simpa [mem_get_state] using hs2)
  · rw [hrun1]
    exact managerRun_of_found
      (List.find?_cons_of_pos _ (stateMatches_mkState mgr t now))
  · rw [hrun1]
    have hnil : st.filter (fun s => stateMatches s t) = [] :=
      List.filter_eq_nil_iff.mpr (List.find?_eq_none.mp hfind)
    simp [countRecords, stateMatches_mkState, hnil]
  · rw [hrun1]
    have hqnil : q.filter (fun u => u.name == t.name && u.id == t.id) = [] :=
      List.length_eq_zero.mp (by simpa [countQueued] using hq)
    simp [countQueued, List.filter_append, hqnil]

/-- Witness for C1 at a concrete input: empty store and queue, task
`("a", "1")` submitted twice. -/
theorem c1_duplicate_submission_witness :
    mem_get_state [] (Task.mk "a" "1") = Except.ok none
    ∧ countQueued [] (Task.mk "a" "1") = 0
    ∧ managerRun "m" 1 (managerRun "m" 0 [] [] (Task.mk "a" "1")).1
        (managerRun "m" 0 [] [] (Task.mk "a" "1")).2 (Task.mk "a" "1")
        = managerRun "m" 0 [] [] (Task.mk "a" "1")
    ∧ countRecords (managerRun "m" 0 [] [] (Task.mk "a" "1")).1 (Task.mk "a" "1") = 1
    ∧ countQueued (managerRun "m" 0 [] [] (Task.mk "a" "1")).2 (Task.mk "a" "1") = 1 :=
  ⟨rfl, rfl,
    (c1_duplicate_submission "m" 0 1 [] [] (Task.mk "a" "1") rfl rfl).2.1,
    (c1_duplicate_submission "m" 0 1 [] [] (Task.mk "a" "1") rfl rfl).2.2.1,
    (c1_duplicate_submission "m" 0 1 [] [] (Task.mk "a" "1") rfl rfl).2.2.2⟩

/-- C5: a worker iteration on a non-sentinel task deletes the task's state
exactly once, and only after running the task: the event list splits around a
single `stateDeleted` event whose prefix contains the `ran` event. -/
theorem c5_delete_once_after_run (t : Task) (h : ¬ t.name = "stop") :
    ∃ pre post,
      (workerIteration t).1 = pre ++ WorkerEvent.stateDeleted t :: post
      ∧ WorkerEvent.ran t ∈ pre
      ∧ WorkerEvent.stateDeleted t ∉ pre
      ∧ WorkerEvent.stateDeleted t ∉ post := by
  have hb : (t.name == "stop") = false := by simp [h]
  refine ⟨[WorkerEvent.statusUpdated t TaskStatus.Running, WorkerEvent.ran t],
    [], ?_, ?_, ?_, ?_⟩ <;> simp [workerIteration, hb]

/-- Witness for C5 at a concrete input: the task `("work", "1")`. -/
theorem c5_delete_once_after_run_witness :
    ¬ (Task.mk "work" "1").name = "stop"
    ∧ ∃ pre post,
        (workerIteration (Task.mk "work" "1")).1
          = pre ++ WorkerEvent.stateDeleted (Task.mk "work" "1") :: post
        ∧ WorkerEvent.ran (Task.mk "work" "1") ∈ pre
        ∧ WorkerEvent.stateDeleted (Task.mk "work" "1") ∉ pre
        ∧ WorkerEvent.stateDeleted (Task.mk "work" "1") ∉ post :=
  ⟨by decide, c5_delete_once_after_run (Task.mk "work" "1") (by decide)⟩

/-- C9, counterexample: on a store holding two records for the same identity
(one `Pending`, one `Running`, as the set's iteration order may present
them), `update_status(.., Running)` removes the `Pending` record and inserts
a copy equal to the already-present `Running` record, so the total number of
records drops from 2 to 1 — the claim's "total number of records is
unchanged" fails. -/
theorem c9_counterexample :
    mem_update_status [cexPending, cexRunning] (Task.mk "t" "1")
        TaskStatus.Running = Except.ok [cexRunning]
    ∧ ¬ ([cexRunning] : List TaskState).length
        = ([cexPending, cexRunning] : List TaskState).length := by
  constructor
  · rfl
  · decide

/-- C9, amended: provided the store holds at most one record per task
identity (the invariant the manager maintains), `update_status` on a stored
identity succeeds and replaces only that record's status: the record keeps
its `id`, `task_id`, `task_name`, `task_manager`, `instance` and
`creation_time` fields, every record of a different identity is untouched,
and the total number of records is unchanged. -/
theorem c9_update_status_frame (st : List TaskState) (t : Task)
    (status : TaskStatus) (s : TaskState)
    (hu : IdUnique st)
    (hs : mem_get_state st t = Except.ok (some s)) :
    ∃ st2, mem_update_status st t status = Except.ok st2
      ∧ st2.length = st.length
      ∧ (∃ s2, mem_get_state st2 t = Except.ok (some s2)
          ∧ s2.status = status
          ∧ s2.id = s.id ∧ s2.task_id = s.task_id ∧ s2.task_name = s.task_name
          ∧ s2.task_manager = s.task_manager ∧ s2.inst = s.inst
          ∧ s2.creation_time = s.creation_time)
      ∧ (∀ r, stateMatches r t = false → (r ∈ st2 ↔ r ∈ st)) := by
  have hfind : st.find? (fun x => stateMatches x t) = some s := by
    simpa [mem_get_state] using hs
  have hps : stateMatches s t = true := by
    have := List.find?_some hfind
    simpa using this
  have hmem : s ∈ st := List.mem_of_find?_eq_some hfind
  have hid : sameId s { s with status := status } := ⟨rfl, rfl⟩
  have hnotmem : { s with status := status } ∉ st.erase s := fun hin =>
    hu.not_sameId_of_mem_erase hmem hin hid
  have hp2 : stateMatches { s with status := status } t = true :=
    (stateMatches_congr (sameId_symm hid) t).trans hps
  have hupd : mem_update_status st t status
      = Except.ok ({ s with status := status } :: st.erase s) := by
    simp [mem_update_status, mem_get_state, hfind, hsInsert_of_not_mem hnotmem]
  refine ⟨{ s with status := status } :: st.erase s, hupd, ?_,
    ⟨{ s with status := status }, ?_, rfl, rfl, rfl, rfl, rfl, rfl, rfl⟩, ?_⟩
  · rw [List.length_cons, List.length_erase_of_mem hmem]
    have := List.length_pos_of_mem hmem
    omega
  · have hfind2 : List.find? (fun x => stateMatches x t)
        ({ s with status := status } :: st.erase s)
        = some { s with status := status } :=
      @List.find?_cons_of_pos TaskState (fun x => stateMatches x t) _
        (st.erase s) hp2
    simp only [mem_get_state, hfind2]
  · intro r hr
    constructor
    · intro hin
      rcases List.mem_cons.mp hin with h2 | h2
      · rw [h2, hp2] at hr
        exact Bool.noConfusion hr
      · exact List.mem_of_mem_erase h2
    · intro hin
      have hrs : r ≠ s := fun he => by
        rw [he, hps] at hr
        exact Bool.noConfusion hr
      exact List.mem_cons.mpr (Or.inr (hu.nodup.mem_erase_iff.mpr ⟨hrs, hin⟩))

/-- Witness for C9 at a concrete input: a store holding the single record
`cexPending` for task `("t", "1")`, updated to `Running`. -/
theorem c9_update_status_frame_witness :
    IdUnique [cexPending]
    ∧ mem_get_state [cexPending] (Task.mk "t" "1") = Except.ok (some cexPending)
    ∧ ∃ st2, mem_update_status [cexPending] (Task.mk "t" "1") TaskStatus.Running
          = Except.ok st2
        ∧ st2.length = ([cexPending] : List TaskState).length
        ∧ (∃ s2, mem_get_state st2 (Task.mk "t" "1") = Except.ok (some s2)
            ∧ s2.status = TaskStatus.Running
            ∧ s2.id = cexPending.id ∧ s2.task_id = cexPending.task_id
            ∧ s2.task_name = cexPending.task_name
            ∧ s2.task_manager = cexPending.task_manager
            ∧ s2.inst = cexPending.inst
            ∧ s2.creation_time = cexPending.creation_time)
        ∧ (∀ r, stateMatches r (Task.mk "t" "1") = false →
            (r ∈ st2 ↔ r ∈ ([cexPending] : List TaskState))) :=
  ⟨by simp [IdUnique], rfl,
    c9_update_status_frame [cexPending] (Task.mk "t" "1") TaskStatus.Running
      cexPending (by simp [IdUnique]) rfl⟩

/-- C10: the worker loop recognizes the shutdown sentinel by
`task.name() == "stop"` alone, so any task named `"stop"` — whatever its id —
makes the worker clear the shared running flag and end its loop, without
running the task, updating its status, or deleting its state; its effect is
identical to `StopTask`. -/
theorem c10_stop_named_task (t : Task) (h : t.name = "stop") :
    workerIteration t = ([], false)
    ∧ workerIteration t = workerIteration stopTask
    ∧ WorkerEvent.ran t ∉ (workerIteration t).1
    ∧ WorkerEvent.statusUpdated t TaskStatus.Running ∉ (workerIteration t).1
    ∧ WorkerEvent.stateDeleted t ∉ (workerIteration t).1
    ∧ (∀ rest : List Task, workerLoop (t :: rest) = []) := by
  have hb : (t.name == "stop") = true := by simp [h]
  refine ⟨?_, ?_, ?_, ?_, ?_, ?_⟩ <;> simp [workerIteration, workerLoop, stopTask, hb]

/-- Witness for C10 at a concrete input: a user-submitted task named
`"stop"` whose id differs from the sentinel's. -/
theorem c10_stop_named_task_witness :
    (Task.mk "stop" "user-42").name = "stop"
    ∧ workerIteration (Task.mk "stop" "user-42") = ([], false)
    ∧ workerIteration (Task.mk "stop" "user-42") = workerIteration stopTask :=
  ⟨rfl, (c10_stop_named_task (Task.mk "stop" "user-42") rfl).1,
    (c10_stop_named_task (Task.mk "stop" "user-42") rfl).2.1⟩

/-- C4: over states reachable by manager operations (submission, the
worker's mark-running and delete, startup clear), a stored record's status
never changes except from `Pending` to `Running`: after any single
operation, a record of the same identity either kept its status or went
`Pending` → `Running`; in particular no operation takes a record from
`Running` back to `Pending`. -/
theorem c4_status_transitions (mgr : String) (st : List TaskState)
    (op : ManagerOp) (t : Task) (s s2 : TaskState)
    (hreach : Reachable mgr st)
    (hbefore : mem_get_state st t = Except.ok (some s))
    (hafter : mem_get_state (applyOp mgr st op) t = Except.ok (some s2)) :
    s2.status = s.status
    ∨ (s.status = TaskStatus.Pending ∧ s2.status = TaskStatus.Running) := by
  have hu := reachable_idUnique hreach
  have hfb : st.find? (fun x => stateMatches x t) = some s := by
    simpa [mem_get_state] using hbefore
  have hps : stateMatches s t = true := by
    have := List.find?_some hfb
    simpa using this
  have hsmem : s ∈ st := List.mem_of_find?_eq_some hfb
  cases op with
  | submit t2 now =>
    cases hfind : st.find? (fun x => stateMatches x t2) with
    | some s0 =>
      have heq : applyOp mgr st (ManagerOp.submit t2 now) = st := by
        simp [applyOp, managerRun_of_found hfind]
      rw [heq] at hafter
      exact Or.inl (by
        rw [Option.some.inj (Except.ok.inj (hbefore.symm.trans hafter))])
    | none =>
      have heq : applyOp mgr st (ManagerOp.submit t2 now)
          = mkState mgr t2 now :: st := by
        simp [applyOp, managerRun_of_fresh hfind]
      rw [heq] at hafter
      have hfa : (mkState mgr t2 now :: st).find? (fun x => stateMatches x t)
          = some s2 := by
        simpa [mem_get_state] using hafter
      cases hpm : stateMatches (mkState mgr t2 now) t with
      | true =>
        have hids : t2.id = t.id ∧ t2.name = t.name := by
          simpa [stateMatches, mkState] using hpm
        have hsame : st.find? (fun x => stateMatches x t2) = some s := by
          have hfun : (fun x : TaskState => stateMatches x t2)
              = (fun x : TaskState => stateMatches x t) := by
            funext x
            simp [stateMatches, hids.1, hids.2]
          rw [hfun, hfb]
        rw [hfind] at hsame
        exact absurd hsame (by simp)
      | false =>
        rw [List.find?_cons_of_neg _ (by simp [hpm])] at hfa
        exact Or.inl (by rw [Option.some.inj (hfb.symm.trans hfa)])
  | markRunning t2 =>
    cases hfind : st.find? (fun x => stateMatches x t2) with
    | none =>
      have heq : applyOp mgr st (ManagerOp.markRunning t2) = st := by
        simp [applyOp, mem_update_status, mem_get_state, hfind]
      rw [heq] at hafter
      exact Or.inl (by
        rw [Option.some.inj (Except.ok.inj (hbefore.symm.trans hafter))])
    | some s0 =>
      have hmem0 : s0 ∈ st := List.mem_of_find?_eq_some hfind
      have hnm : { s0 with status := TaskStatus.Running } ∉ st.erase s0 :=
        fun hin => hu.not_sameId_of_mem_erase hmem0 hin ⟨rfl, rfl⟩
      have heq : applyOp mgr st (ManagerOp.markRunning t2)
          = { s0 with status := TaskStatus.Running } :: st.erase s0 := by
        simp [applyOp, mem_update_status, mem_get_state, hfind,
          hsInsert_of_not_mem hnm]
      rw [heq] at hafter
      have hfa : ({ s0 with status := TaskStatus.Running } :: st.erase s0).find?
          (fun x => stateMatches x t) = some s2 := by
        simpa [mem_get_state] using hafter
      have hcong : stateMatches { s0 with status := TaskStatus.Running } t
          = stateMatches s0 t :=
        stateMatches_congr (sameId_symm ⟨rfl, rfl⟩) t
      cases hpn : stateMatches { s0 with status := TaskStatus.Running } t with
      | true =>
        have hp0t : stateMatches s0 t = true := by rw [← hcong, hpn]
        have hs0s : s0 = s :=
          hu.eq_of_sameId hmem0 hsmem (sameId_of_matches hp0t hps)
        have hs2 : s2 = { s0 with status := TaskStatus.Running } := by
          rw [@List.find?_cons_of_pos TaskState (fun x => stateMatches x t) _
            (st.erase s0) hpn] at hfa
          exact (Option.some.inj hfa).symm
        subst hs0s
        by_cases hstat : s0.status = TaskStatus.Pending
        · exact Or.inr ⟨hstat, by rw [hs2]⟩
        · have hrun : s0.status = TaskStatus.Running := by
            cases h6 : s0.status
            · exact absurd h6 hstat
            · rfl
          exact Or.inl (by rw [hs2, hrun])
      | false =>
        have hp0f : stateMatches s0 t = false := by rw [← hcong, hpn]
        rw [List.find?_cons_of_neg _ (by simp [hpn]),
          find?_erase_of_neg st hp0f] at hfa
        exact Or.inl (by rw [Option.some.inj (hfb.symm.trans hfa)])
  | finish t2 =>
    cases hfind : st.find? (fun x => stateMatches x t2) with
    | none =>
      have heq : applyOp mgr st (ManagerOp.finish t2) = st := by
        simp [applyOp, mem_delete_state, mem_get_state, hfind]
      rw [heq] at hafter
      exact Or.inl (by
        rw [Option.some.inj (Except.ok.inj (hbefore.symm.trans hafter))])
    | some s0 =>
      have hmem0 : s0 ∈ st := List.mem_of_find?_eq_some hfind
      have heq : applyOp mgr st (ManagerOp.finish t2) = st.erase s0 := by
        simp [applyOp, mem_delete_state, mem_get_state, hfind]
      rw [heq] at hafter
      have hfa : (st.erase s0).find? (fun x => stateMatches x t) = some s2 := by
        simpa [mem_get_state] using hafter
      cases hp0 : stateMatches s0 t with
      | false =>
        rw [find?_erase_of_neg st hp0] at hfa
        exact Or.inl (by rw [Option.some.inj (hfb.symm.trans hfa)])
      | true =>
        have hmem2 : s2 ∈ st.erase s0 := List.mem_of_find?_eq_some hfa
        have hp2 : stateMatches s2 t = true := by
          have := List.find?_some hfa
          simpa using this
        exact absurd (sameId_of_matches hp0 hp2)
          (hu.not_sameId_of_mem_erase hmem0 hmem2)
  | clearAll =>
    have heq : applyOp mgr st ManagerOp.clearAll = [] := by
      simp [applyOp, mem_clear]
    rw [heq] at hafter
    simp [mem_get_state] at hafter

/-- Witness for C4 at a concrete input: submit task `("work", "1")`, mark it
running, then apply a further mark-running step; the record stays
`Running`. -/
theorem c4_status_transitions_witness :
    Reachable "m" (applyOp "m" (applyOp "m" []
        (ManagerOp.submit (Task.mk "work" "1") 0))
        (ManagerOp.markRunning (Task.mk "work" "1")))
    ∧ mem_get_state (applyOp "m" (applyOp "m" []
          (ManagerOp.submit (Task.mk "work" "1") 0))
          (ManagerOp.markRunning (Task.mk "work" "1"))) (Task.mk "work" "1")
        = Except.ok (some
            (TaskState.mk none "1" "work" "m" none TaskStatus.Running 0))
    ∧ mem_get_state (applyOp "m" (applyOp "m" (applyOp "m" []
          (ManagerOp.submit (Task.mk "work" "1") 0))
          (ManagerOp.markRunning (Task.mk "work" "1")))
          (ManagerOp.markRunning (Task.mk "work" "1"))) (Task.mk "work" "1")
        = Except.ok (some
            (TaskState.mk none "1" "work" "m" none TaskStatus.Running 0))
    ∧ ((TaskState.mk none "1" "work" "m" none TaskStatus.Running 0).status
          = (TaskState.mk none "1" "work" "m" none TaskStatus.Running 0).status
        ∨ ((TaskState.mk none "1" "work" "m" none TaskStatus.Running 0).status
              = TaskStatus.Pending
            ∧ (TaskState.mk none "1" "work" "m" none TaskStatus.Running 0).status
              = TaskStatus.Running)) :=
  ⟨Reachable.step _ (ManagerOp.markRunning (Task.mk "work" "1"))
      (Reachable.step _ (ManagerOp.submit (Task.mk "work" "1") 0) Reachable.init),
    rfl, rfl,
    c4_status_transitions "m"
      (applyOp "m" (applyOp "m" [] (ManagerOp.submit (Task.mk "work" "1") 0))
        (ManagerOp.markRunning (Task.mk "work" "1")))
      (ManagerOp.markRunning (Task.mk "work" "1")) (Task.mk "work" "1")
      (TaskState.mk none "1" "work" "m" none TaskStatus.Running 0)
      (TaskState.mk none "1" "work" "m" none TaskStatus.Running 0)
      (Reachable.step _ (ManagerOp.markRunning (Task.mk "work" "1"))
        (Reachable.step _ (ManagerOp.submit (Task.mk "work" "1") 0)
          Reachable.init))
      rfl rfl⟩

/-- C6: `save_state` creates a `Pending` record carrying the task's name and
id and the store's manager name; submitting K tasks with pairwise distinct
identities into an empty manager stores exactly K records, all `Pending`,
whose identities are exactly the submitted ones, and `get_all_states`
returns them. -/
theorem c6_submission_creates_pending (mgr : String) (now : Nat)
    (ts : List Task)
    (hdist : ts.Pairwise (fun a b => ¬ (a.name = b.name ∧ a.id = b.id))) :
    (∀ (st st2 : List TaskState) (u : Task) (s : TaskState),
        mem_save_state mgr st u now = Except.ok (st2, s) →
        s.status = TaskStatus.Pending ∧ s.task_name = u.name
          ∧ s.task_id = u.id ∧ s.task_manager = mgr)
    ∧ mem_get_all_states (submitAll mgr now ([], []) ts).1
        = Except.ok (submitAll mgr now ([], []) ts).1
    ∧ (submitAll mgr now ([], []) ts).1.length = ts.length
    ∧ (∀ s ∈ (submitAll mgr now ([], []) ts).1, s.status = TaskStatus.Pending)
    ∧ (∀ u ∈ ts, ∃ s ∈ (submitAll mgr now ([], []) ts).1,
        s.task_name = u.name ∧ s.task_id = u.id)
    ∧ (∀ s ∈ (submitAll mgr now ([], []) ts).1, ∃ u ∈ ts,
        s.task_name = u.name ∧ s.task_id = u.id) := by
  have hspec := submitAll_spec mgr now ts [] [] (fun t _ => rfl) hdist
  have h1 : (submitAll mgr now ([], []) ts).1
      = ts.reverse.map (fun u => mkState mgr u now) := by
    rw [hspec]
    simp
  refine ⟨?_, rfl, ?_, ?_, ?_, ?_⟩
  · intro st st2 u s hsv
    simp [mem_save_state] at hsv
    rw [← hsv.2]
    exact ⟨rfl, rfl, rfl, rfl⟩
  · rw [h1]
    simp
  · rw [h1]
    intro s hsm
    obtain ⟨u, _, huv⟩ := List.mem_map.mp hsm
    rw [← huv]
    rfl
  · rw [h1]
    intro u hu
    exact ⟨mkState mgr u now,
      List.mem_map.mpr ⟨u, List.mem_reverse.mpr hu, rfl⟩, rfl, rfl⟩
  · rw [h1]
    intro s hsm
    obtain ⟨u, hu, huv⟩ := List.mem_map.mp hsm
    exact ⟨u, List.mem_reverse.mp hu, by rw [← huv]; exact ⟨rfl, rfl⟩⟩

/-- Witness for C6 at a concrete input: two tasks sharing a name but with
distinct ids, submitted into an empty manager. -/
theorem c6_submission_creates_pending_witness :
    ([Task.mk "a" "1", Task.mk "a" "2"] : List Task).Pairwise
        (fun a b => ¬ (a.name = b.name ∧ a.id = b.id))
    ∧ (submitAll "m" 0 ([], []) [Task.mk "a" "1", Task.mk "a" "2"]).1.length
        = ([Task.mk "a" "1", Task.mk "a" "2"] : List Task).length
    ∧ (∀ s ∈ (submitAll "m" 0 ([], []) [Task.mk "a" "1", Task.mk "a" "2"]).1,
        s.status = TaskStatus.Pending) :=
  ⟨by decide,
    (c6_submission_creates_pending "m" 0 [Task.mk "a" "1", Task.mk "a" "2"]
      (by decide)).2.2.1,
    (c6_submission_creates_pending "m" 0 [Task.mk "a" "1", Task.mk "a" "2"]
      (by decide)).2.2.2.1⟩

/-- C7: submissions of distinct, non-sentinel tasks are enqueued in the
caller's call order, and a single worker draining the queue completes them
strictly in that order (completion order = submission order). -/
theorem c7_single_worker_order (mgr : String) (now : Nat) (ts : List Task)
    (hstop : ∀ t ∈ ts, ¬ t.name = "stop")
    (hdist : ts.Pairwise (fun a b => ¬ (a.name = b.name ∧ a.id = b.id))) :
    (submitAll mgr now ([], []) ts).2 = ts
    ∧ workerLoop ((submitAll mgr now ([], []) ts).2 ++ [stopTask]) = ts := by
  have hspec := submitAll_spec mgr now ts [] [] (fun t _ => rfl) hdist
  have h2 : (submitAll mgr now ([], []) ts).2 = ts := by
    rw [hspec]
    simp
  exact ⟨h2, by rw [h2]; exact workerLoop_no_stop ts hstop⟩

/-- Witness for C7 at a concrete input: tasks `("a","1")` then `("b","2")`
submitted in that order and drained by one worker. -/
theorem c7_single_worker_order_witness :
    (∀ t ∈ ([Task.mk "a" "1", Task.mk "b" "2"] : List Task), ¬ t.name = "stop")
    ∧ ([Task.mk "a" "1", Task.mk "b" "2"] : List Task).Pairwise
        (fun a b => ¬ (a.name = b.name ∧ a.id = b.id))
    ∧ (submitAll "m" 0 ([], []) [Task.mk "a" "1", Task.mk "b" "2"]).2
        = [Task.mk "a" "1", Task.mk "b" "2"]
    ∧ workerLoop ((submitAll "m" 0 ([], [])
          [Task.mk "a" "1", Task.mk "b" "2"]).2 ++ [stopTask])
        = [Task.mk "a" "1", Task.mk "b" "2"] :=
  ⟨by decide, by decide,
    (c7_single_worker_order "m" 0 [Task.mk "a" "1", Task.mk "b" "2"]
      (by decide) (by decide)).1,
    (c7_single_worker_order "m" 0 [Task.mk "a" "1", Task.mk "b" "2"]
      (by decide) (by decide)).2⟩

end Quartermaster
